import Mathlib

/-!
Verification of the ABCU advising-assistance program core (ProjectTwo.cpp).

The program loads a CSV-like course file in two passes (pass 1 collects the
set of declared course keys, pass 2 validates prerequisite references against
that set and materializes accepted records), then answers two read queries:
a sorted course listing and a single-course detail view with resolved
prerequisite titles.

Strings are modelled as lists of character codes (`List Nat`), so that the
C byte-level operations (`isspace`, `toupper`, comparison) are captured
exactly.  The hash table `std::unordered_map` is modelled as an association
list with unique keys by construction; the `std::unordered_set` of pass 1 as
a duplicate-free list.
-/

abbrev Str := List Nat

/-- C `isspace` in the default locale: space, tab, newline, vertical tab,
form feed, carriage return (`trim`, ProjectTwo.cpp lines 34-40 applies it to
each character via `std::isspace`). -/
def isCSpace (c : Nat) : Bool :=
  decide (c = 32 ∨ c = 9 ∨ c = 10 ∨ c = 11 ∨ c = 12 ∨ c = 13)

/-- `trim` (lines 34-40): drop leading whitespace, then trailing whitespace. -/
def trim (s : Str) : Str :=
  ((s.dropWhile isCSpace).reverse.dropWhile isCSpace).reverse

/-- C `toupper` in the default locale, as used on each character at line 45:
lowercase ASCII letters map to uppercase, everything else is unchanged. -/
def toUpperCode (c : Nat) : Nat :=
  if 97 ≤ c ∧ c ≤ 122 then c - 32 else c

/-- `normalizeCourseNumber` (lines 43-47): trim, then uppercase every
character. -/
def normalizeCourseNumber (s : Str) : Str :=
  (trim s).map toUpperCode

/-- The `while (std::getline(ss, token, ','))` loop of `splitByComma`
(lines 53-56), before per-token trimming, mid-extraction: `acc` holds the
characters of the current token read so far (in reverse).  On a comma the
current token is complete and the next `std::getline` call starts; that call
fails (extracting nothing at end of stream) exactly when no characters
remain, so a trailing comma yields no extra token. -/
def getlineAux : Str → Str → List Str
  | [], acc => [acc.reverse]
  | c :: cs, acc =>
    if c = 44 then
      acc.reverse :: (if cs = [] then [] else getlineAux cs [])
    else getlineAux cs (c :: acc)

/-- The token sequence of the `std::getline` loop: the empty stream yields
no token at all (the first `std::getline` call fails immediately). -/
def getlineTokens (s : Str) : List Str :=
  if s = [] then [] else getlineAux s []

/-- `splitByComma` (lines 50-62): split on commas, trim each token, and if
the (nonempty) line ends with a comma append one extra empty token. -/
def splitByComma (line : Str) : List Str :=
  (getlineTokens line).map trim ++
    (if line ≠ [] ∧ line.getLast? = some 44 then [([] : Str)] else [])

/-- `Course` (lines 26-30). -/
structure Course where
  courseNumber : Str
  title : Str
  prerequisites : List Str
deriving DecidableEq

/-- `CourseTable` (line 66), `std::unordered_map<std::string, Course>`,
modelled as an association list whose keys are unique by construction. -/
abbrev CourseTable := List (Str × Course)

/-- `coursesTable.find(k)`: the record stored under key `k`, if any. -/
def findCourse : CourseTable → Str → Option Course
  | [], _ => none
  | (k', c) :: t, k => if k' = k then some c else findCourse t k

/-- Lines 184-188: insert the built record under its own course number,
guarded so an existing entry is never overwritten. -/
def insertIfAbsent (t : CourseTable) (c : Course) : CourseTable :=
  match findCourse t c.courseNumber with
  | some _ => t
  | none => t ++ [(c.courseNumber, c)]

/-- The reason codes of the diagnostics written to `std::cerr` (the messages
also carry a line number and offending text; only the kind matters here). -/
inductive Diag where
  | sourceUnreadable
  | badFormat
  | missingField
  | duplicateKey
  | invalidPrereq
deriving DecidableEq

/-- State of pass 1 (lines 72-114): the `allCourseNumbers` set (as a
duplicate-free list) plus the diagnostics emitted so far. -/
structure P1State where
  seen : List Str
  diags : List Diag
deriving DecidableEq

/-- The body of the pass-1 `while (std::getline(in, line))` loop
(lines 82-113). -/
def pass1Line (st : P1State) (line : Str) : P1State :=
  if trim line = [] then st
  else
    match splitByComma line with
    | t0 :: t1 :: _ =>
      let courseNum := normalizeCourseNumber t0
      let title := trim t1
      if courseNum = [] ∨ title = [] then
        { st with diags := st.diags ++ [Diag.missingField] }
      else if courseNum ∈ st.seen then
        { st with diags := st.diags ++ [Diag.duplicateKey] }
      else
        { st with seen := st.seen ++ [courseNum] }
    | _ => { st with diags := st.diags ++ [Diag.badFormat] }

/-- Pass 1 over all input lines. -/
def pass1 (lines : List Str) (st : P1State) : P1State :=
  lines.foldl pass1Line st

/-- The pass-2 prerequisite validation loop (lines 150-165) over the tokens
from index 2 on: normalize each, ignore blanks, and stop with failure at the
first prerequisite not in the pass-1 key set. -/
def checkPrereqs (keys : List Str) : List Str → Bool
  | [] => true
  | t :: ts =>
    let p := normalizeCourseNumber t
    if p = [] then checkPrereqs keys ts
    else if p ∈ keys then checkPrereqs keys ts
    else false

/-- State of pass 2 (lines 116-190): the table built so far plus
diagnostics. -/
structure P2State where
  table : CourseTable
  diags : List Diag
deriving DecidableEq

/-- The body of the pass-2 `while (std::getline(in, line))` loop
(lines 126-189). -/
def pass2Line (keys : List Str) (st : P2State) (line : Str) : P2State :=
  if trim line = [] then st
  else
    match splitByComma line with
    | t0 :: t1 :: rest =>
      let courseNum := normalizeCourseNumber t0
      let title := trim t1
      if courseNum = [] ∨ title = [] then
        { st with diags := st.diags ++ [Diag.missingField] }
      else if checkPrereqs keys rest then
        let c : Course :=
          ⟨courseNum, title, (rest.map normalizeCourseNumber).filter (fun p => p ≠ [])⟩
        { st with table := insertIfAbsent st.table c }
      else
        { st with diags := st.diags ++ [Diag.invalidPrereq] }
    | _ => { st with diags := st.diags ++ [Diag.badFormat] }

/-- Pass 2 over all input lines. -/
def pass2 (keys : List Str) (lines : List Str) (st : P2State) : P2State :=
  lines.foldl (pass2Line keys) st

/-- `loadCoursesFromFile` (lines 68-193) as the spec's
`load(lineSource) -> (Catalog, diagnostics)`.  The line source is `none`
when the file cannot be opened (lines 74-78 and 118-122: report and return
the empty table) and `some lines` otherwise; the two passes then scan the
same line sequence twice. -/
def load (src : Option (List Str)) : CourseTable × List Diag :=
  match src with
  | none => ([], [Diag.sourceUnreadable])
  | some lines =>
    let p1 := pass1 lines ⟨[], []⟩
    let p2 := pass2 p1.seen lines ⟨[], p1.diags⟩
    (p2.table, p2.diags)

/-- The pass-1 key set (`allCourseNumbers` after pass 1) for a readable
source. -/
def pass1Keys (lines : List Str) : List Str :=
  (pass1 lines ⟨[], []⟩).seen

/-- The Catalog produced by `load` on a readable source. -/
def loadTable (lines : List Str) : CourseTable :=
  (load (some lines)).1

/-- `operator<=` induced by `std::string`'s lexicographic `operator<`
(character-by-character comparison of codes), the order used by `std::sort`
at line 207. -/
def lexLe : Str → Str → Bool
  | [], _ => true
  | _ :: _, [] => false
  | a :: as, b :: bs =>
    if a < b then true
    else if b < a then false
    else lexLe as bs

/-- The `std::sort(courseNums.begin(), courseNums.end())` call (line 207):
any comparison sort produces the same nondecreasing rearrangement, modelled
by insertion sort. -/
def sortKeys (ks : List Str) : List Str :=
  List.insertionSort (fun a b => lexLe a b = true) ks

/-- `printCourseListSorted` (lines 195-213) as the spec's pure
`listSorted(Catalog)` query: collect the table's keys, sort them, and output
one `(courseNumber, title)` pair per key from the record stored there.  The
`coursesTable.at(num)` access cannot miss for keys collected from the table
itself; the `none` branch models the unreachable throwing access. -/
def listSorted (t : CourseTable) : List (Str × Str) :=
  (sortKeys (t.map Prod.fst)).map (fun k =>
    match findCourse t k with
    | some c => (c.courseNumber, c.title)
    | none => (k, []))

/-- The outcome of the spec's `lookup` query, distilled from
`printCourseInfo` (lines 215-247): each resolved prerequisite pair carries
`some title` when the referenced record was found (line 240) and `none` as
the "(missing info)" fallback marker (line 244). -/
inductive LookupResult where
  | notFound (normalizedKey : Str)
  | found (record : Course) (resolved : List (Str × Option Str))
deriving DecidableEq

/-- Resolution of one stored prerequisite key against the table
(lines 237-246). -/
def resolvePrereq (t : CourseTable) (p : Str) : Str × Option Str :=
  match findCourse t p with
  | some pc => (pc.courseNumber, some pc.title)
  | none => (p, none)

/-- `printCourseInfo` (lines 215-247) as the spec's pure `lookup(rawKey)`
query: normalize the raw key exactly as at load time (line 221 calls the
same `normalizeCourseNumber`), then either report the record with its
resolved prerequisites or report a miss carrying the normalized key.  (The
`coursesTable.empty()` early return at lines 216-219 prints a different
message for an empty table; as a query result it is the same miss, the
wording being presentation owned by the excluded menu layer.) -/
def lookupCourse (t : CourseTable) (rawKey : Str) : LookupResult :=
  let k := normalizeCourseNumber rawKey
  match findCourse t k with
  | none => LookupResult.notFound k
  | some c => LookupResult.found c (c.prerequisites.map (resolvePrereq t))

/-- The record a well-formed line materializes in pass 2 (lines 171-182). -/
def lineRecord (t0 t1 : Str) (rest : List Str) : Course :=
  ⟨normalizeCourseNumber t0, trim t1,
    (rest.map normalizeCourseNumber).filter (fun p => p ≠ [])⟩

/-- Well-formedness of one Catalog entry: stored under its own normalized,
non-empty course number, non-empty title, and every stored prerequisite key
non-empty, normalized and a member of the pass-1 key set. -/
def GoodEntry (keys : List Str) (k : Str) (c : Course) : Prop :=
  c.courseNumber = k ∧ k ≠ [] ∧ trim k = k ∧ k.map toUpperCode = k ∧
    c.title ≠ [] ∧
    ∀ p ∈ c.prerequisites, p ≠ [] ∧ trim p = p ∧ p.map toUpperCode = p ∧ p ∈ keys

/-- The four-line scenario of the spec, section 8: `CS101, Intro to CS,` /
`CS201, Data Structures, CS101` / `CS300, Algorithms, CS201,CS999` /
`cs101, Duplicate Intro,`. -/
def scenLines : List Str :=
  [[67, 83, 49, 48, 49, 44, 32, 73, 110, 116, 114, 111, 32, 116, 111, 32, 67, 83, 44],
   [67, 83, 50, 48, 49, 44, 32, 68, 97, 116, 97, 32, 83, 116, 114, 117, 99, 116, 117,
    114, 101, 115, 44, 32, 67, 83, 49, 48, 49],
   [67, 83, 51, 48, 48, 44, 32, 65, 108, 103, 111, 114, 105, 116, 104, 109, 115, 44,
    32, 67, 83, 50, 48, 49, 44, 67, 83, 57, 57, 57],
   [99, 115, 49, 48, 49, 44, 32, 68, 117, 112, 108, 105, 99, 97, 116, 101, 32, 73,
    110, 116, 114, 111, 44]]

/-- The line `A,TA`. -/
def exA : Str := [65, 44, 84, 65]

/-- The line `B,TB,A`. -/
def exBA : Str := [66, 44, 84, 66, 44, 65]

/-- The line `A,TA,B`. -/
def exAB : Str := [65, 44, 84, 65, 44, 66]

/-- The line `B,TB,Z` (no course `Z` is ever declared). -/
def exBZ : Str := [66, 44, 84, 66, 44, 90]

/-- The line `K,T1`. -/
def exK1 : Str := [75, 44, 84, 49]

/-- The line `K,T2` (same key as `exK1`, different title). -/
def exK2 : Str := [75, 44, 84, 50]

/-- The line `A,TA,Z` (its only prerequisite `Z` is never declared). -/
def exAZ : Str := [65, 44, 84, 65, 44, 90]

/-! ### Normalization lemmas -/

theorem trim_eq_rdropWhile (s : Str) :
    trim s = List.rdropWhile isCSpace (s.dropWhile isCSpace) := rfl

theorem dropWhile_trim (s : Str) : (trim s).dropWhile isCSpace = trim s := by
  have hA : (s.dropWhile isCSpace).dropWhile isCSpace = s.dropWhile isCSpace :=
    List.dropWhile_idempotent _ _
  obtain ⟨t, ht⟩ := List.rdropWhile_prefix isCSpace (s.dropWhile isCSpace)
  rw [trim_eq_rdropWhile]
  cases hu : List.rdropWhile isCSpace (s.dropWhile isCSpace) with
  | nil => rfl
  | cons c u =>
    rw [hu] at ht
    have hc : ¬ isCSpace c = true := by
      intro hpc
      rw [← ht, List.cons_append, List.dropWhile_cons_of_pos hpc] at hA
      have hlen := congrArg List.length hA
      have hle : ((u ++ t).dropWhile isCSpace).length ≤ (u ++ t).length :=
        (List.dropWhile_suffix isCSpace).sublist.length_le
      rw [List.length_cons] at hlen
      omega
    rw [List.dropWhile_cons_of_neg hc]

theorem rdropWhile_trim (s : Str) :
    List.rdropWhile isCSpace (trim s) = trim s := by
  rw [trim_eq_rdropWhile, List.rdropWhile_idempotent]

theorem trim_idem (s : Str) : trim (trim s) = trim s := by
  rw [trim_eq_rdropWhile (trim s), dropWhile_trim, rdropWhile_trim]

theorem isCSpace_toUpperCode (c : Nat) : isCSpace (toUpperCode c) = isCSpace c := by
  unfold toUpperCode
  split
  · next h =>
    simp only [isCSpace, decide_eq_decide]
    omega
  · rfl

theorem toUpperCode_idem (c : Nat) : toUpperCode (toUpperCode c) = toUpperCode c := by
  unfold toUpperCode
  split
  · next h =>
    have hn : ¬ (97 ≤ c - 32 ∧ c - 32 ≤ 122) := by omega
    rw [if_neg hn]
  · rfl

theorem dropWhile_map_toUpper (l : Str) :
    (l.map toUpperCode).dropWhile isCSpace = (l.dropWhile isCSpace).map toUpperCode := by
  induction l with
  | nil => rfl
  | cons c t ih =>
    by_cases h : isCSpace c = true
    · rw [List.map_cons, List.dropWhile_cons_of_pos (by rw [isCSpace_toUpperCode]; exact h),
        List.dropWhile_cons_of_pos h, ih]
    · rw [List.map_cons, List.dropWhile_cons_of_neg (by rw [isCSpace_toUpperCode]; exact h),
        List.dropWhile_cons_of_neg h, List.map_cons]

theorem rdropWhile_map_toUpper (l : Str) :
    List.rdropWhile isCSpace (l.map toUpperCode) =
      (List.rdropWhile isCSpace l).map toUpperCode := by
  unfold List.rdropWhile
  rw [← List.map_reverse, dropWhile_map_toUpper, List.map_reverse]

theorem trim_map_toUpper (s : Str) :
    trim (s.map toUpperCode) = (trim s).map toUpperCode := by
  rw [trim_eq_rdropWhile, trim_eq_rdropWhile, dropWhile_map_toUpper, rdropWhile_map_toUpper]

theorem trim_normalize (s : Str) :
    trim (normalizeCourseNumber s) = normalizeCourseNumber s := by
  unfold normalizeCourseNumber
  rw [trim_map_toUpper, trim_idem]

theorem map_toUpper_normalize (s : Str) :
    (normalizeCourseNumber s).map toUpperCode = normalizeCourseNumber s := by
  unfold normalizeCourseNumber
  rw [List.map_map]
  exact List.map_congr_left (fun a _ => toUpperCode_idem a)

theorem normalizeCourseNumber_idem (s : Str) :
    normalizeCourseNumber (normalizeCourseNumber s) = normalizeCourseNumber s := by
  conv_lhs => rw [normalizeCourseNumber]
  rw [trim_normalize, map_toUpper_normalize]

theorem trim_eq_nil_of_space (l : Str) (h : ∀ c ∈ l, isCSpace c) : trim l = [] := by
  rw [trim_eq_rdropWhile, List.dropWhile_eq_nil_iff.mpr h]
  rfl

/-! ### Table and pass lemmas -/

theorem findCourse_mem : ∀ (t : CourseTable) (k : Str) (c : Course),
    findCourse t k = some c → (k, c) ∈ t := by
  intro t
  induction t with
  | nil => intro k c h; simp [findCourse] at h
  | cons e t ih =>
    intro k c h
    obtain ⟨k', c'⟩ := e
    rw [findCourse] at h
    by_cases hk : k' = k
    · rw [if_pos hk] at h
      cases h
      subst hk
      exact List.mem_cons_self _ _
    · rw [if_neg hk] at h
      exact List.mem_cons_of_mem _ (ih k c h)

theorem findCourse_eq_none_iff : ∀ (t : CourseTable) (k : Str),
    findCourse t k = none ↔ k ∉ t.map Prod.fst := by
  intro t
  induction t with
  | nil => intro k; simp [findCourse]
  | cons e t ih =>
    intro k
    obtain ⟨k', c'⟩ := e
    rw [findCourse]
    by_cases hk : k' = k
    · simp [hk]
    · simp only [if_neg hk, List.map_cons, List.mem_cons]
      rw [ih]
      constructor
      · rintro h (h' | h')
        · exact hk h'.symm
        · exact h h'
      · intro h h'
        exact h (Or.inr h')

theorem mem_insertIfAbsent (t : CourseTable) (c : Course) (e : Str × Course)
    (h : e ∈ insertIfAbsent t c) : e ∈ t ∨ e = (c.courseNumber, c) := by
  unfold insertIfAbsent at h
  cases hfind : findCourse t c.courseNumber with
  | some c0 => rw [hfind] at h; exact Or.inl h
  | none =>
    rw [hfind] at h
    rcases List.mem_append.mp h with h' | h'
    · exact Or.inl h'
    · exact Or.inr (List.mem_singleton.mp h')

theorem insertIfAbsent_keys_nodup (t : CourseTable) (c : Course)
    (h : (t.map Prod.fst).Nodup) : ((insertIfAbsent t c).map Prod.fst).Nodup := by
  unfold insertIfAbsent
  cases hfind : findCourse t c.courseNumber with
  | some c0 => exact h
  | none =>
    rw [List.map_append]
    rw [List.nodup_append]
    refine ⟨h, List.nodup_singleton _, ?_⟩
    intro a ha hb
    simp only [List.map_cons, List.map_nil, List.mem_singleton] at hb
    subst hb
    exact (findCourse_eq_none_iff t c.courseNumber).mp hfind ha

theorem findCourse_append_of_some (t' : CourseTable) (k : Str) (c : Course) :
    ∀ t : CourseTable, findCourse t k = some c → findCourse (t ++ t') k = some c := by
  intro t
  induction t with
  | nil => intro h; simp [findCourse] at h
  | cons e t ih =>
    intro h
    obtain ⟨k', c0⟩ := e
    rw [findCourse] at h
    rw [List.cons_append, findCourse]
    by_cases hk : k' = k
    · rw [if_pos hk] at h ⊢
      exact h
    · rw [if_neg hk] at h ⊢
      exact ih h

theorem findCourse_insertIfAbsent_of_some (t : CourseTable) (c c' : Course) (k : Str)
    (h : findCourse t k = some c) :
    findCourse (insertIfAbsent t c') k = some c := by
  unfold insertIfAbsent
  cases hfind : findCourse t c'.courseNumber with
  | some c0 => exact h
  | none => exact findCourse_append_of_some _ _ _ t h

theorem checkPrereqs_sound (keys : List Str) : ∀ ts : List Str,
    checkPrereqs keys ts = true →
    ∀ t ∈ ts, normalizeCourseNumber t ≠ [] → normalizeCourseNumber t ∈ keys := by
  intro ts
  induction ts with
  | nil => intro _ t ht; simp at ht
  | cons t0 ts ih =>
    intro h t ht hne
    rw [checkPrereqs] at h
    rcases List.mem_cons.mp ht with rfl | ht'
    · rw [if_neg hne] at h
      by_cases hmem : normalizeCourseNumber t ∈ keys
      · exact hmem
      · rw [if_neg hmem] at h
        cases h
    · by_cases hp : normalizeCourseNumber t0 = []
      · rw [if_pos hp] at h
        exact ih h t ht' hne
      · rw [if_neg hp] at h
        by_cases hmem : normalizeCourseNumber t0 ∈ keys
        · rw [if_pos hmem] at h
          exact ih h t ht' hne
        · rw [if_neg hmem] at h
          cases h

theorem pass2Line_table_eq (keys : List Str) (st : P2State) (line : Str) :
    (pass2Line keys st line).table =
      (if trim line = [] then st.table
       else
         match splitByComma line with
         | t0 :: t1 :: rest =>
           if normalizeCourseNumber t0 = [] ∨ trim t1 = [] then st.table
           else if checkPrereqs keys rest then
             insertIfAbsent st.table (lineRecord t0 t1 rest)
           else st.table
         | _ => st.table) := by
  unfold pass2Line lineRecord
  dsimp only
  repeat' split
  all_goals rfl

theorem pass1Line_seen_eq (st : P1State) (line : Str) :
    (pass1Line st line).seen =
      (if trim line = [] then st.seen
       else
         match splitByComma line with
         | t0 :: t1 :: _ =>
           if normalizeCourseNumber t0 = [] ∨ trim t1 = [] then st.seen
           else if normalizeCourseNumber t0 ∈ st.seen then st.seen
           else st.seen ++ [normalizeCourseNumber t0]
         | _ => st.seen) := by
  unfold pass1Line
  dsimp only
  repeat' split
  all_goals rfl

theorem pass2_cons (keys : List Str) (l : Str) (ls : List Str) (st : P2State) :
    pass2 keys (l :: ls) st = pass2 keys ls (pass2Line keys st l) := rfl

theorem pass1_cons (l : Str) (ls : List Str) (st : P1State) :
    pass1 (l :: ls) st = pass1 ls (pass1Line st l) := rfl

theorem pass2_table_congr (keys : List Str) : ∀ (lines : List Str) (st st' : P2State),
    st.table = st'.table → (pass2 keys lines st).table = (pass2 keys lines st').table := by
  intro lines
  induction lines with
  | nil => intro st st' h; exact h
  | cons l ls ih =>
    intro st st' h
    rw [pass2_cons, pass2_cons]
    apply ih
    rw [pass2Line_table_eq, pass2Line_table_eq, h]

theorem pass1_seen_congr : ∀ (lines : List Str) (st st' : P1State),
    st.seen = st'.seen → (pass1 lines st).seen = (pass1 lines st').seen := by
  intro lines
  induction lines with
  | nil => intro st st' h; exact h
  | cons l ls ih =>
    intro st st' h
    rw [pass1_cons, pass1_cons]
    apply ih
    rw [pass1Line_seen_eq, pass1Line_seen_eq, h]

theorem goodEntry_lineRecord (keys : List Str) (t0 t1 : Str) (rest : List Str)
    (h0 : normalizeCourseNumber t0 ≠ []) (h1 : trim t1 ≠ [])
    (hcp : checkPrereqs keys rest = true) :
    GoodEntry keys (normalizeCourseNumber t0) (lineRecord t0 t1 rest) := by
  refine ⟨rfl, h0, trim_normalize t0, map_toUpper_normalize t0, h1, ?_⟩
  intro p hp
  rw [lineRecord] at hp
  simp only [List.mem_filter, List.mem_map, decide_eq_true_eq] at hp
  obtain ⟨⟨t, ht, rfl⟩, hne⟩ := hp
  exact ⟨hne, trim_normalize t, map_toUpper_normalize t,
    checkPrereqs_sound keys rest hcp t ht hne⟩

theorem pass2Line_goodEntries (keys : List Str) (st : P2State) (line : Str)
    (h : ∀ e ∈ st.table, GoodEntry keys e.1 e.2) :
    ∀ e ∈ (pass2Line keys st line).table, GoodEntry keys e.1 e.2 := by
  rw [pass2Line_table_eq]
  split
  · exact h
  · split
    · rename_i t0 t1 rest heq
      split
      · exact h
      · rename_i hnot
        split
        · rename_i hcp
          intro e he
          rcases mem_insertIfAbsent _ _ _ he with he' | he'
          · exact h e he'
          · subst he'
            push_neg at hnot
            exact goodEntry_lineRecord keys t0 t1 rest hnot.1 hnot.2 hcp
        · exact h
    · exact h

theorem pass2_goodEntries (keys : List Str) : ∀ (lines : List Str) (st : P2State),
    (∀ e ∈ st.table, GoodEntry keys e.1 e.2) →
    ∀ e ∈ (pass2 keys lines st).table, GoodEntry keys e.1 e.2 := by
  intro lines
  induction lines with
  | nil => intro st h; exact h
  | cons l ls ih =>
    intro st h
    rw [pass2_cons]
    exact ih _ (pass2Line_goodEntries keys st l h)

/-- Master invariant of `load`: every entry of the returned Catalog is
well-formed with respect to the pass-1 key set. -/
theorem loadTable_goodEntries (lines : List Str) :
    ∀ e ∈ loadTable lines, GoodEntry (pass1Keys lines) e.1 e.2 := by
  have : loadTable lines =
      (pass2 (pass1Keys lines) lines ⟨[], (pass1 lines ⟨[], []⟩).diags⟩).table := rfl
  rw [this]
  exact pass2_goodEntries _ lines _ (by intro e he; simp at he)

theorem pass2_keys_nodup (keys : List Str) : ∀ (lines : List Str) (st : P2State),
    (st.table.map Prod.fst).Nodup → ((pass2 keys lines st).table.map Prod.fst).Nodup := by
  intro lines
  induction lines with
  | nil => intro st h; exact h
  | cons l ls ih =>
    intro st h
    rw [pass2_cons]
    apply ih
    rw [pass2Line_table_eq]
    repeat' split
    all_goals first
      | exact h
      | exact insertIfAbsent_keys_nodup _ _ h

theorem pass2_find_stable (keys : List Str) : ∀ (lines : List Str) (st : P2State)
    (k : Str) (c : Course), findCourse st.table k = some c →
    findCourse (pass2 keys lines st).table k = some c := by
  intro lines
  induction lines with
  | nil => intro st k c h; exact h
  | cons l ls ih =>
    intro st k c h
    rw [pass2_cons]
    apply ih
    rw [pass2Line_table_eq]
    repeat' split
    all_goals first
      | exact h
      | exact findCourse_insertIfAbsent_of_some _ _ _ _ h

theorem checkPrereqs_false_exists (keys : List Str) : ∀ ts : List Str,
    checkPrereqs keys ts = false →
    ∃ t ∈ ts, normalizeCourseNumber t ≠ [] ∧ normalizeCourseNumber t ∉ keys := by
  intro ts
  induction ts with
  | nil => intro h; simp [checkPrereqs] at h
  | cons t0 ts ih =>
    intro h
    rw [checkPrereqs] at h
    by_cases hp : normalizeCourseNumber t0 = []
    · rw [if_pos hp] at h
      obtain ⟨t, ht, h1, h2⟩ := ih h
      exact ⟨t, List.mem_cons_of_mem _ ht, h1, h2⟩
    · rw [if_neg hp] at h
      by_cases hmem : normalizeCourseNumber t0 ∈ keys
      · rw [if_pos hmem] at h
        obtain ⟨t, ht, h1, h2⟩ := ih h
        exact ⟨t, List.mem_cons_of_mem _ ht, h1, h2⟩
      · exact ⟨t0, List.mem_cons_self _ _, hp, hmem⟩

/-! ### Claims -/

/-- C1, counterexample: on the input `A,TA,B` / `B,TB,Z`, pass 1 declares
both `A` and `B`, pass 2 accepts `A` (its prerequisite `B` is declared) but
rejects `B` (prerequisite `Z` is undeclared).  The final Catalog therefore
holds the record `A` whose `prerequisiteKeys` contain `B`, while `B` is not
a key of that final Catalog — refuting the claim that every prerequisite key
exists as a key of the final Catalog. -/
theorem c1_counterexample :
    findCourse (loadTable [exAB, exBZ]) [65] = some ⟨[65], [84, 65], [[66]]⟩ ∧
      findCourse (loadTable [exAB, exBZ]) [66] = none := by decide

/-- C1, amended: every key in every record's `prerequisiteKeys` of a Catalog
returned by `load` is a member of the pass-1 set of declared course keys
(the check performed at load time, never at query time); membership in the
final Catalog itself is not guaranteed. -/
theorem c1_prereqs_declared (lines : List Str) (k : Str) (c : Course) (p : Str)
    (h : (k, c) ∈ loadTable lines) (hp : p ∈ c.prerequisites) :
    p ∈ pass1Keys lines :=
  ((loadTable_goodEntries lines (k, c) h).2.2.2.2.2 p hp).2.2.2

theorem c1_prereqs_declared_witness :
    ([66], (⟨[66], [84, 66], [[65]]⟩ : Course)) ∈ loadTable [exA, exBA] ∧
      [65] ∈ ((⟨[66], [84, 66], [[65]]⟩ : Course)).prerequisites ∧
      [65] ∈ pass1Keys [exA, exBA] :=
  ⟨by decide, by decide,
    c1_prereqs_declared [exA, exBA] [66] ⟨[66], [84, 66], [[65]]⟩ [65]
      (by decide) (by decide)⟩

/-- C2: a course line whose prerequisite list contains a key absent from the
full pass-1 set of declared keys contributes nothing to the final Catalog:
the record that line would materialize is not an entry of `load`'s Catalog,
even when its own key and title are well-formed. -/
theorem c2_invalid_prereq_course_absent (lines : List Str) (line t0 t1 : Str)
    (rest : List Str) (hmem : line ∈ lines)
    (hsp : splitByComma line = t0 :: t1 :: rest)
    (hk : normalizeCourseNumber t0 ≠ []) (ht : trim t1 ≠ [])
    (hbad : checkPrereqs (pass1Keys lines) rest = false) :
    (normalizeCourseNumber t0, lineRecord t0 t1 rest) ∉ loadTable lines := by
  intro hin
  have hall := (loadTable_goodEntries lines _ hin).2.2.2.2.2
  obtain ⟨t, htmem, htne, htnin⟩ := checkPrereqs_false_exists _ rest hbad
  apply htnin
  refine (hall (normalizeCourseNumber t) ?_).2.2.2
  rw [lineRecord]
  exact List.mem_filter.mpr
    ⟨List.mem_map.mpr ⟨t, htmem, rfl⟩, by simpa using htne⟩

theorem c2_invalid_prereq_course_absent_witness :
    exAZ ∈ [exAZ] ∧ splitByComma exAZ = [[65], [84, 65], [90]] ∧
      normalizeCourseNumber [65] ≠ [] ∧ trim [84, 65] ≠ [] ∧
      checkPrereqs (pass1Keys [exAZ]) [[90]] = false ∧
      (normalizeCourseNumber [65], lineRecord [65] [84, 65] [[90]]) ∉ loadTable [exAZ] :=
  ⟨by decide, by decide, by decide, by decide, by decide,
    c2_invalid_prereq_course_absent [exAZ] exAZ [65] [84, 65] [[90]]
      (by decide) (by decide) (by decide) (by decide) (by decide)⟩

/-- C3, counterexample: on the input `K,T1` / `K,T2` the same normalized key
`K` is declared on two otherwise-valid lines, yet the final Catalog contains
one record under `K` (the first line's record, title `T1`) — refuting the
claim that zero records with that key survive. -/
theorem c3_counterexample :
    findCourse (loadTable [exK1, exK2]) [75] = some ⟨[75], [84, 49], []⟩ ∧
      ¬ findCourse (loadTable [exK1, exK2]) [75] = none := by decide

/-- C3, amended: when the same normalized key is declared on two or more
otherwise-valid lines, the final Catalog contains at most one record under
that key — pass 1 rejects the later duplicates and keeps the key set
unchanged, and pass 2's guarded insert never overwrites the record already
stored, so the first occurrence accepted by pass 2 survives.  (In general
the Catalog's key list is duplicate-free, and an existing binding is stable
under the rest of pass 2.) -/
theorem c3_at_most_one_per_key :
    (∀ lines : List Str, ((loadTable lines).map Prod.fst).Nodup) ∧
      (∀ (keys : List Str) (lines : List Str) (st : P2State) (k : Str) (c : Course),
        findCourse st.table k = some c →
        findCourse (pass2 keys lines st).table k = some c) := by
  constructor
  · intro lines
    have : loadTable lines =
        (pass2 (pass1Keys lines) lines ⟨[], (pass1 lines ⟨[], []⟩).diags⟩).table := rfl
    rw [this]
    exact pass2_keys_nodup _ lines _ (by simp)
  · intro keys lines st k c h
    exact pass2_find_stable keys lines st k c h

theorem c3_at_most_one_per_key_witness :
    ((loadTable [exK1, exK2]).map Prod.fst).Nodup ∧
      findCourse (pass2 [] [exK1] ⟨[([75], ⟨[75], [84, 49], []⟩)], []⟩).table [75] =
        some ⟨[75], [84, 49], []⟩ :=
  ⟨c3_at_most_one_per_key.1 [exK1, exK2],
    c3_at_most_one_per_key.2 [] [exK1] ⟨[([75], ⟨[75], [84, 49], []⟩)], []⟩ [75]
      ⟨[75], [84, 49], []⟩ (by decide)⟩

/-- C9: every record of a Catalog returned by `load` is stored under a map
key equal to its own `courseNumber` field; that key and the record's title
are non-empty, and the key is whitespace-trimmed and fully uppercased. -/
theorem c9_key_invariant (lines : List Str) (k : Str) (c : Course)
    (h : (k, c) ∈ loadTable lines) :
    c.courseNumber = k ∧ k ≠ [] ∧ c.title ≠ [] ∧ trim k = k ∧
      k.map toUpperCode = k := by
  have hg := loadTable_goodEntries lines (k, c) h
  exact ⟨hg.1, hg.2.1, hg.2.2.2.2.1, hg.2.2.1, hg.2.2.2.1⟩

theorem c9_key_invariant_witness :
    ([65], (⟨[65], [84, 65], []⟩ : Course)) ∈ loadTable [exA] ∧
      ((⟨[65], [84, 65], []⟩ : Course).courseNumber = [65] ∧ ([65] : Str) ≠ [] ∧
        (⟨[65], [84, 65], []⟩ : Course).title ≠ [] ∧ trim [65] = [65] ∧
        ([65] : Str).map toUpperCode = [65]) :=
  ⟨by decide, c9_key_invariant [exA] [65] ⟨[65], [84, 65], []⟩ (by decide)⟩

/-- C10: every key stored in any record's prerequisites list of a Catalog
returned by `load` is non-empty, trimmed and uppercased, and is a member of
the pass-1 set of declared course keys (membership in that declared-key set,
not necessarily in the final Catalog). -/
theorem c10_prereq_invariant (lines : List Str) (k : Str) (c : Course) (p : Str)
    (h : (k, c) ∈ loadTable lines) (hp : p ∈ c.prerequisites) :
    p ≠ [] ∧ trim p = p ∧ p.map toUpperCode = p ∧ p ∈ pass1Keys lines :=
  (loadTable_goodEntries lines (k, c) h).2.2.2.2.2 p hp

theorem c10_prereq_invariant_witness :
    ([66], (⟨[66], [84, 66], [[65]]⟩ : Course)) ∈ loadTable [exBA, exA] ∧
      (([65] : Str) ≠ [] ∧ trim [65] = [65] ∧ ([65] : Str).map toUpperCode = [65] ∧
        [65] ∈ pass1Keys [exBA, exA]) :=
  ⟨by decide,
    c10_prereq_invariant [exBA, exA] [66] ⟨[66], [84, 66], [[65]]⟩ [65]
      (by decide) (by decide)⟩

/-- C4: `load` never aborts.  An unreadable source yields the empty Catalog
(with the corresponding diagnostic), and every non-fatal error is row-local:
a malformed line, a line with a missing key/title, a line with an invalid
prerequisite (pass 2), and a duplicate-key line (pass 1) each leave the
accumulated state unchanged, processing continuing with the remaining
lines, so the Catalog built from all other accepted lines is still
returned. -/
theorem c4_load_never_aborts :
    load none = ([], [Diag.sourceUnreadable]) ∧
      (∀ (keys : List Str) (line : Str) (rest : List Str) (st : P2State),
        trim line ≠ [] → (splitByComma line).length < 2 →
        (pass2 keys (line :: rest) st).table = (pass2 keys rest st).table) ∧
      (∀ (keys : List Str) (line t0 t1 : Str) (ts rest : List Str) (st : P2State),
        trim line ≠ [] → splitByComma line = t0 :: t1 :: ts →
        (normalizeCourseNumber t0 = [] ∨ trim t1 = []) →
        (pass2 keys (line :: rest) st).table = (pass2 keys rest st).table) ∧
      (∀ (keys : List Str) (line t0 t1 : Str) (ts rest : List Str) (st : P2State),
        trim line ≠ [] → splitByComma line = t0 :: t1 :: ts →
        checkPrereqs keys ts = false →
        (pass2 keys (line :: rest) st).table = (pass2 keys rest st).table) ∧
      (∀ (line t0 t1 : Str) (ts rest : List Str) (st : P1State),
        trim line ≠ [] → splitByComma line = t0 :: t1 :: ts →
        normalizeCourseNumber t0 ∈ st.seen →
        (pass1 (line :: rest) st).seen = (pass1 rest st).seen) := by
  refine ⟨rfl, ?_, ?_, ?_, ?_⟩
  · intro keys line rest st hline hlen
    rw [pass2_cons]
    apply pass2_table_congr
    rw [pass2Line_table_eq, if_neg hline]
    rcases hsp : splitByComma line with _ | ⟨t0, _ | ⟨t1, ts⟩⟩
    · rfl
    · rfl
    · rw [hsp] at hlen
      simp only [List.length_cons] at hlen
      omega
  · intro keys line t0 t1 ts rest st hline hsp hmiss
    rw [pass2_cons]
    apply pass2_table_congr
    rw [pass2Line_table_eq, if_neg hline, hsp]
    exact if_pos hmiss
  · intro keys line t0 t1 ts rest st hline hsp hbad
    rw [pass2_cons]
    apply pass2_table_congr
    rw [pass2Line_table_eq, if_neg hline, hsp]
    by_cases hmiss : normalizeCourseNumber t0 = [] ∨ trim t1 = []
    · exact if_pos hmiss
    · exact (if_neg hmiss).trans (if_neg (by simp [hbad]))
  · intro line t0 t1 ts rest st hline hsp hdup
    rw [pass1_cons]
    apply pass1_seen_congr
    rw [pass1Line_seen_eq, if_neg hline, hsp]
    by_cases hmiss : normalizeCourseNumber t0 = [] ∨ trim t1 = []
    · exact if_pos hmiss
    · exact (if_neg hmiss).trans (if_pos hdup)

theorem c4_load_never_aborts_witness :
    load none = ([], [Diag.sourceUnreadable]) ∧
      (trim [65] ≠ [] ∧ (splitByComma [65]).length < 2 ∧
        (pass2 [] [[65]] ⟨[], []⟩).table = (pass2 [] [] ⟨[], []⟩).table) ∧
      (splitByComma [44] = [[], []] ∧
        (pass2 [] [[44]] ⟨[], []⟩).table = (pass2 [] [] ⟨[], []⟩).table) ∧
      (checkPrereqs [[65]] [[90]] = false ∧
        (pass2 [[65]] [exAZ] ⟨[], []⟩).table = (pass2 [[65]] [] ⟨[], []⟩).table) ∧
      (normalizeCourseNumber [65] ∈ [[65]] ∧
        (pass1 [exA] ⟨[[65]], []⟩).seen = (pass1 [] ⟨[[65]], []⟩).seen) :=
  ⟨c4_load_never_aborts.1,
    ⟨by decide, by decide,
      c4_load_never_aborts.2.1 [] [65] [] ⟨[], []⟩ (by decide) (by decide)⟩,
    ⟨by decide,
      c4_load_never_aborts.2.2.1 [] [44] [] [] [] [] ⟨[], []⟩ (by decide) (by decide)
        (by decide)⟩,
    ⟨by decide,
      c4_load_never_aborts.2.2.2.1 [[65]] exAZ [65] [84, 65] [[90]] [] ⟨[], []⟩
        (by decide) (by decide) (by decide)⟩,
    ⟨by decide,
      c4_load_never_aborts.2.2.2.2 exA [65] [84, 65] [] [] ⟨[[65]], []⟩
        (by decide) (by decide) (by decide)⟩⟩

theorem lexLe_total : ∀ a b : Str, lexLe a b = true ∨ lexLe b a = true := by
  intro a
  induction a with
  | nil => intro b; left; rfl
  | cons x xs ih =>
    intro b
    cases b with
    | nil => right; rfl
    | cons y ys =>
      rcases Nat.lt_trichotomy x y with h | h | h
      · left
        rw [lexLe, if_pos h]
      · subst h
        rcases ih ys with h' | h'
        · left
          rw [lexLe, if_neg (Nat.lt_irrefl x), if_neg (Nat.lt_irrefl x)]
          exact h'
        · right
          rw [lexLe, if_neg (Nat.lt_irrefl x), if_neg (Nat.lt_irrefl x)]
          exact h'
      · right
        rw [lexLe, if_pos h]

theorem lexLe_trans : ∀ a b c : Str,
    lexLe a b = true → lexLe b c = true → lexLe a c = true := by
  intro a
  induction a with
  | nil => intro b c _ _; rfl
  | cons x xs ih =>
    intro b c hab hbc
    cases b with
    | nil => simp [lexLe] at hab
    | cons y ys =>
      cases c with
      | nil => simp [lexLe] at hbc
      | cons z zs =>
        rw [lexLe] at hab hbc ⊢
        by_cases hxy : x < y
        · rw [if_pos hxy] at hab
          by_cases hyz : y < z
          · rw [if_pos (Nat.lt_trans hxy hyz)]
          · by_cases hzy : z < y
            · rw [if_neg hyz, if_pos hzy] at hbc
              cases hbc
            · have hyz' : y = z := by omega
              subst hyz'
              rw [if_pos hxy]
        · by_cases hyx : y < x
          · rw [if_neg hxy, if_pos hyx] at hab
            cases hab
          · have hxy' : x = y := by omega
            subst hxy'
            rw [if_neg (Nat.lt_irrefl x), if_neg (Nat.lt_irrefl x)] at hab
            by_cases hyz : x < z
            · rw [if_pos hyz]
            · by_cases hzy : z < x
              · rw [if_neg hyz, if_pos hzy] at hbc
                cases hbc
              · have : x = z := by omega
                subst this
                rw [if_neg (Nat.lt_irrefl x), if_neg (Nat.lt_irrefl x)] at hbc ⊢
                exact ih ys zs hab hbc

theorem findCourse_isSome_of_mem_keys (t : CourseTable) (k : Str)
    (h : k ∈ t.map Prod.fst) : ∃ c, findCourse t k = some c := by
  cases hf : findCourse t k with
  | none => exact absurd h ((findCourse_eq_none_iff t k).mp hf)
  | some c => exact ⟨c, rfl⟩

/-- C5: for every Catalog state (a table whose records are stored under
their own course number, as `load` guarantees), `listSorted` returns one
`(key, title)` pair per record — its length equals the record count — and
the key sequence is non-decreasing under plain codepoint-lexicographic
comparison. -/
theorem c5_listSorted_sorted :
    (∀ t : CourseTable, (listSorted t).length = t.length) ∧
      ∀ t : CourseTable, (∀ e ∈ t, e.2.courseNumber = e.1) →
        (listSorted t).Pairwise (fun a b => lexLe a.1 b.1 = true) := by
  haveI instTot : IsTotal Str (fun a b => lexLe a b = true) := ⟨lexLe_total⟩
  haveI instTrans : IsTrans Str (fun a b => lexLe a b = true) := ⟨lexLe_trans⟩
  constructor
  · intro t
    rw [listSorted, List.length_map, sortKeys, List.length_insertionSort,
      List.length_map]
  · intro t h
    rw [listSorted, List.pairwise_map]
    have hkey : ∀ k ∈ sortKeys (t.map Prod.fst),
        (match findCourse t k with
          | some c => (c.courseNumber, c.title)
          | none => (k, ([] : Str))).1 = k := by
      intro k hk
      rw [sortKeys, List.mem_insertionSort] at hk
      obtain ⟨c, hc⟩ := findCourse_isSome_of_mem_keys t k hk
      rw [hc]
      exact h (k, c) (findCourse_mem t k c hc)
    have hsorted : (sortKeys (t.map Prod.fst)).Pairwise
        (fun a b => lexLe a b = true) :=
      List.sorted_insertionSort _ _
    refine List.Pairwise.imp_of_mem ?_ hsorted
    intro a b ha hb hab
    rw [hkey a ha, hkey b hb]
    exact hab

theorem c5_listSorted_sorted_witness :
    (∀ e ∈ [([66], (⟨[66], [84, 66], []⟩ : Course)),
        ([65], (⟨[65], [84, 65], []⟩ : Course))], e.2.courseNumber = e.1) ∧
      (listSorted [([66], ⟨[66], [84, 66], []⟩), ([65], ⟨[65], [84, 65], []⟩)]).length =
        ([([66], (⟨[66], [84, 66], []⟩ : Course)),
          ([65], (⟨[65], [84, 65], []⟩ : Course))] : CourseTable).length ∧
      (listSorted [([66], ⟨[66], [84, 66], []⟩),
          ([65], ⟨[65], [84, 65], []⟩)]).Pairwise
        (fun a b => lexLe a.1 b.1 = true) :=
  ⟨by decide,
    c5_listSorted_sorted.1 [([66], ⟨[66], [84, 66], []⟩), ([65], ⟨[65], [84, 65], []⟩)],
    c5_listSorted_sorted.2
      [([66], ⟨[66], [84, 66], []⟩), ([65], ⟨[65], [84, 65], []⟩)] (by decide)⟩

/-- C6: `lookupCourse` normalizes the raw key exactly as at load time (the
same trim-then-uppercase; a pre-normalized key queries identically), returns
`notFound` carrying the normalized key when it is absent — a normal result,
not an abort — and on a hit returns the record with each stored prerequisite
key resolved through the table to a `(key, some title)` pair, the
`(key, none)` fallback marker standing in when a prerequisite's record is
unavailable. -/
theorem c6_lookup_behavior (t : CourseTable) (raw : Str) :
    lookupCourse t raw = lookupCourse t (normalizeCourseNumber raw) ∧
      (findCourse t (normalizeCourseNumber raw) = none →
        lookupCourse t raw = LookupResult.notFound (normalizeCourseNumber raw)) ∧
      (∀ c, findCourse t (normalizeCourseNumber raw) = some c →
        lookupCourse t raw =
          LookupResult.found c (c.prerequisites.map (resolvePrereq t)) ∧
        ∀ p : Str,
          (findCourse t p = none → resolvePrereq t p = (p, none)) ∧
          (∀ pc, findCourse t p = some pc →
            resolvePrereq t p = (pc.courseNumber, some pc.title))) := by
  refine ⟨?_, ?_, ?_⟩
  · simp only [lookupCourse, normalizeCourseNumber_idem]
  · intro h
    simp only [lookupCourse]
    rw [h]
  · intro c h
    constructor
    · simp only [lookupCourse]
      rw [h]
    · intro p
      constructor
      · intro hn
        simp only [resolvePrereq]
        rw [hn]
      · intro pc hs
        simp only [resolvePrereq]
        rw [hs]

theorem c6_lookup_behavior_witness :
    findCourse (loadTable [exA, exBA]) (normalizeCourseNumber [32, 98]) =
        some ⟨[66], [84, 66], [[65]]⟩ ∧
      lookupCourse (loadTable [exA, exBA]) [32, 98] =
        LookupResult.found ⟨[66], [84, 66], [[65]]⟩
          (((⟨[66], [84, 66], [[65]]⟩ : Course)).prerequisites.map
            (resolvePrereq (loadTable [exA, exBA]))) :=
  ⟨by decide,
    ((c6_lookup_behavior (loadTable [exA, exBA]) [32, 98]).2.2
      ⟨[66], [84, 66], [[65]]⟩ (by decide)).1⟩

theorem getlineAux_append_comma : ∀ (s : Str) (acc : Str),
    getlineAux (s ++ [44]) acc =
      getlineAux s acc ++ (if s.getLast? = some 44 then [([] : Str)] else []) := by
  intro s
  induction s with
  | nil => intro acc; simp [getlineAux]
  | cons c cs ih =>
    intro acc
    cases cs with
    | nil =>
      by_cases hc : c = 44
      · subst hc
        simp [getlineAux]
      · simp [getlineAux, hc]
    | cons x xs =>
      by_cases hc : c = 44
      · subst hc
        have h1 : getlineAux (((44 : Nat) :: (x :: xs)) ++ [44]) acc =
            acc.reverse :: getlineAux ((x :: xs) ++ [44]) [] := by
          rw [List.cons_append, getlineAux, if_pos rfl, if_neg (by simp)]
        have h2 : getlineAux ((44 : Nat) :: x :: xs) acc =
            acc.reverse :: getlineAux (x :: xs) [] := by
          rw [getlineAux, if_pos rfl, if_neg (by simp)]
        rw [h1, h2, ih [], List.getLast?_cons_cons]
        simp
      · have h1 : getlineAux ((c :: (x :: xs)) ++ [44]) acc =
            getlineAux ((x :: xs) ++ [44]) (c :: acc) := by
          rw [List.cons_append, getlineAux, if_neg hc]
        have h2 : getlineAux (c :: x :: xs) acc = getlineAux (x :: xs) (c :: acc) := by
          rw [getlineAux, if_neg hc]
        rw [h1, h2, ih (c :: acc), List.getLast?_cons_cons]

theorem getlineTokens_append_comma (s : Str) (hs : s ≠ []) :
    getlineTokens (s ++ [44]) =
      getlineTokens s ++ (if s.getLast? = some 44 then [([] : Str)] else []) := by
  rw [getlineTokens, getlineTokens, if_neg hs, if_neg (by simp : ¬(s ++ [44] = []))]
  exact getlineAux_append_comma s []

/-- C7: a line ending with the delimiter yields the split fields plus one
extra empty trailing field: the `std::getline` loop produces no token for
the dangling separator, and lines 58-60 append the empty token.
Equivalently, appending a trailing comma to any nonempty line appends
exactly one empty field to its token sequence. -/
theorem c7_trailing_delimiter :
    (∀ line : Str, line.getLast? = some 44 →
      splitByComma line = (getlineTokens line).map trim ++ [([] : Str)]) ∧
      (∀ line : Str, line ≠ [] →
        splitByComma (line ++ [44]) = splitByComma line ++ [([] : Str)]) := by
  constructor
  · intro line h
    have hne : line ≠ [] := by
      intro e
      rw [e] at h
      simp at h
    rw [splitByComma, if_pos ⟨hne, h⟩]
  · intro line hne
    have hcat : (line ++ [44]).getLast? = some 44 := List.getLast?_concat _
    have hcatne : line ++ [44] ≠ [] := by simp
    rw [splitByComma, splitByComma, getlineTokens_append_comma line hne]
    by_cases hlast : line.getLast? = some 44
    · rw [if_pos hlast, if_pos ⟨hcatne, hcat⟩, if_pos ⟨hne, hlast⟩]
      simp [show trim [] = [] from rfl]
    · rw [if_neg hlast, if_pos ⟨hcatne, hcat⟩,
        if_neg (fun hx => hlast hx.2)]
      simp

theorem c7_trailing_delimiter_witness :
    (([97, 44, 98, 44] : Str).getLast? = some 44 ∧
      splitByComma [97, 44, 98, 44] =
        (getlineTokens [97, 44, 98, 44]).map trim ++ [([] : Str)]) ∧
      (([97, 44, 98] : Str) ≠ [] ∧
        splitByComma ([97, 44, 98] ++ [44]) = splitByComma [97, 44, 98] ++ [([] : Str)]) :=
  ⟨⟨by decide, c7_trailing_delimiter.1 [97, 44, 98, 44] (by decide)⟩,
    ⟨by decide, c7_trailing_delimiter.2 [97, 44, 98] (by decide)⟩⟩

/-- C8, counterexample: the whitespace-only line `" "` does not tokenize to
the empty sequence — `std::getline` extracts the single space as one token
and `trim` empties it, so `splitByComma` yields one empty token, refuting
"an empty or whitespace-only line yields no tokens". -/
theorem c8_counterexample :
    splitByComma [32] = [([] : Str)] ∧ splitByComma [32] ≠ [] := by decide

theorem getlineAux_no_comma : ∀ s : Str, 44 ∉ s →
    ∀ acc : Str, getlineAux s acc = [acc.reverse ++ s] := by
  intro s
  induction s with
  | nil => intro _ acc; simp [getlineAux]
  | cons c cs ih =>
    intro h acc
    have hc : ¬ c = 44 := by
      intro e
      exact h (e ▸ List.mem_cons_self c cs)
    rw [getlineAux, if_neg hc, ih (fun hm => h (List.mem_cons_of_mem c hm)) (c :: acc)]
    simp

/-- C8, amended: the empty line yields no tokens, but a whitespace-only
nonempty line yields exactly one token, which trims to the empty string —
not the empty sequence.  Either way the loader treats such a line as a
skip, not an error: both pass 1 and pass 2 leave their state (including
diagnostics) untouched on any line whose trimmed content is empty, before
ever tokenizing it. -/
theorem c8_blank_line_skip :
    splitByComma [] = [] ∧
      (∀ line : Str, line ≠ [] → (∀ c ∈ line, isCSpace c) →
        splitByComma line = [([] : Str)]) ∧
      (∀ (st : P1State) (line : Str), trim line = [] → pass1Line st line = st) ∧
      (∀ (keys : List Str) (st : P2State) (line : Str), trim line = [] →
        pass2Line keys st line = st) := by
  refine ⟨rfl, ?_, ?_, ?_⟩
  · intro line hne hsp
    have h44 : 44 ∉ line := by
      intro hm
      have := hsp 44 hm
      simp [isCSpace] at this
    have hlast : ¬ (line ≠ [] ∧ line.getLast? = some 44) := by
      rintro ⟨-, hl⟩
      obtain ⟨hx, he⟩ := List.mem_getLast?_eq_getLast (Option.mem_def.mpr hl)
      exact h44 (he ▸ List.getLast_mem hx)
    rw [splitByComma, if_neg hlast, getlineTokens, if_neg hne,
      getlineAux_no_comma line h44 []]
    simp [trim_eq_nil_of_space line hsp]
  · intro st line h
    rw [pass1Line, if_pos h]
  · intro keys st line h
    rw [pass2Line, if_pos h]

theorem c8_blank_line_skip_witness :
    splitByComma [] = [] ∧
      (([32, 9] : Str) ≠ [] ∧ (∀ c ∈ ([32, 9] : Str), isCSpace c) ∧
        splitByComma [32, 9] = [([] : Str)]) ∧
      (trim [32, 9] = [] ∧ pass1Line ⟨[], []⟩ [32, 9] = ⟨[], []⟩ ∧
        pass2Line [] ⟨[], []⟩ [32, 9] = ⟨[], []⟩) :=
  ⟨c8_blank_line_skip.1,
    ⟨by decide, by decide, c8_blank_line_skip.2.1 [32, 9] (by decide) (by decide)⟩,
    ⟨by decide, c8_blank_line_skip.2.2.1 ⟨[], []⟩ [32, 9] (by decide),
      c8_blank_line_skip.2.2.2 [] ⟨[], []⟩ [32, 9] (by decide)⟩⟩

/-- Sanity: on the spec's section-8 scenario the model reproduces the
documented pass-1 key set (`CS101`, `CS201`, `CS300`), final Catalog
(`CS101`, `CS201` with its resolved prerequisite), sorted listing, and the
two diagnostics (duplicate `cs101`, invalid prerequisite `CS999`). -/
theorem scenario_section8 :
    pass1Keys scenLines =
        [[67, 83, 49, 48, 49], [67, 83, 50, 48, 49], [67, 83, 51, 48, 48]] ∧
      (load (some scenLines)).2 = [Diag.duplicateKey, Diag.invalidPrereq] ∧
      listSorted (loadTable scenLines) =
        [([67, 83, 49, 48, 49], [73, 110, 116, 114, 111, 32, 116, 111, 32, 67, 83]),
         ([67, 83, 50, 48, 49],
          [68, 97, 116, 97, 32, 83, 116, 114, 117, 99, 116, 117, 114, 101, 115])] ∧
      lookupCourse (loadTable scenLines) [99, 115, 50, 48, 49] =
        LookupResult.found
          ⟨[67, 83, 50, 48, 49],
           [68, 97, 116, 97, 32, 83, 116, 114, 117, 99, 116, 117, 114, 101, 115],
           [[67, 83, 49, 48, 49]]⟩
          [([67, 83, 49, 48, 49],
            some [73, 110, 116, 114, 111, 32, 116, 111, 32, 67, 83])] := by decide
